import Mathlib

/-!
Verification of the Chatbot_Akar retrieval core.

Shallow embedding, in Lean 4, of the retrieval pipeline of the
`showtimeapp/Chatbot_Akar` repository: text chunking, index build and load,
similarity search post-processing, confidence scoring, source deduplication
and query expansion, as implemented in `app/services/index.py` and
`app/services/rag.py`.  Python strings are modelled as `List Char`,
floating-point scores as `ℚ`, and disk / network effects as explicit
state or event traces.
-/

set_option autoImplicit false
set_option linter.unusedVariables false

namespace Akar

/-! ## String helpers (models of Python `str` operations) -/

/-- Model of Python's whitespace test used by `str.strip()`. -/
def isSpaceChar (c : Char) : Bool := c.isWhitespace

/-- Model of Python `s.strip()`: remove leading and trailing whitespace. -/
def stripList (s : List Char) : List Char :=
  ((s.dropWhile isSpaceChar).reverse.dropWhile isSpaceChar).reverse

/-- Model of Python `s.lower()` (the trigger keywords are ASCII). -/
def lowerList (s : List Char) : List Char := s.map Char.toLower

/-- Model of Python `needle in hay` (substring test). -/
def listContains (hay needle : List Char) : Bool :=
  hay.tails.any (fun t => needle.isPrefixOf t)

/-- Model of Python `text.rfind(c, lo, hi)` for a single character `c`:
the greatest index `i` with `lo ≤ i < min hi (len text)` and `text[i] = c`,
or `-1` when there is none. -/
def rfindChar (s : List Char) (c : Char) (lo hi : Nat) : Int :=
  match ((List.range (min hi s.length)).filter
      (fun i => decide (lo ≤ i) && (s.get? i == some c))).getLast? with
  | some i => (i : Int)
  | none => -1

theorem length_stripList_le (s : List Char) : (stripList s).length ≤ s.length := by
  unfold stripList
  calc ((s.dropWhile isSpaceChar).reverse.dropWhile isSpaceChar).reverse.length
      = ((s.dropWhile isSpaceChar).reverse.dropWhile isSpaceChar).length := by
        rw [List.length_reverse]
    _ ≤ (s.dropWhile isSpaceChar).reverse.length :=
        (List.dropWhile_sublist _).length_le
    _ = (s.dropWhile isSpaceChar).length := by rw [List.length_reverse]
    _ ≤ s.length := (List.dropWhile_sublist _).length_le

/-- A found `rfind` position lies strictly below the (clamped) upper bound. -/
theorem rfindChar_lt {s : List Char} {c : Char} {lo hi : Nat} {i : Int}
    (h : rfindChar s c lo hi = i) (hnn : 0 ≤ i) : i < (hi : Int) := by
  unfold rfindChar at h
  split at h
  case _ j hlast =>
    have hmem : j ∈ (List.range (min hi s.length)).filter
        (fun i => decide (lo ≤ i) && (s.get? i == some c)) :=
      List.mem_of_getLast?_eq_some hlast
    have hj : j ∈ List.range (min hi s.length) := List.mem_of_mem_filter hmem
    have hj' : j < min hi s.length := List.mem_range.mp hj
    have hjh : j < hi := lt_of_lt_of_le hj' (Nat.min_le_left _ _)
    omega
  case _ hlast =>
    omega

/-! ## Chunker (`_chunk_text` in `app/services/index.py`)

```python
def _chunk_text(text, chunk_size=CHUNK_SIZE, overlap=CHUNK_OVERLAP):
    if not text: return []
    chunks = []; start = 0; text_len = len(text)
    while start < text_len:
        end = min(start + chunk_size, text_len)
        if end < text_len:
            snap = text.rfind("\n", start + overlap, end)
            if snap <= start:
                snap = text.rfind(" ", start + overlap, end)
            if snap > start:
                end = snap
        chunk = text[start:end].strip()
        if chunk: chunks.append(chunk)
        next_start = end - overlap
        if next_start <= start:
            next_start = start + max(1, chunk_size - overlap)
        start = next_start
    return chunks
```
`start` is a `Nat`; the Python comparison `next_start <= start` on possibly
negative `end - overlap` coincides with the truncated-subtraction comparison
`end - overlap ≤ start` because `end - overlap < 0 → end - overlap ≤ start`
and the branch taken is decided before `start` is overwritten. -/

/-- The loop body's window end after boundary snapping: `end0` is the raw
window end `min(start+chunk_size, len)`; when it lies strictly before the
text end, snap back to the last newline in `[start+overlap, end0)`, falling
back to the last space there, keeping the snap only when it lies strictly
after `start`. -/
def snapEnd (text : List Char) (chunk_size overlap start : Nat) : Nat :=
  let end0 := min (start + chunk_size) text.length
  if end0 < text.length then
    let snap0 := rfindChar text '\n' (start + overlap) end0
    let snap := if snap0 ≤ (start : Int)
      then rfindChar text ' ' (start + overlap) end0 else snap0
    if (start : Int) < snap then snap.toNat else end0
  else end0

/-- The loop body's cursor update: `next_start = end - overlap`, forced to
`start + max(1, chunk_size - overlap)` when it would not strictly advance. -/
def nextStart (text : List Char) (chunk_size overlap start : Nat) : Nat :=
  let next0 := snapEnd text chunk_size overlap start - overlap
  if next0 ≤ start then start + max 1 (chunk_size - overlap) else next0

theorem lt_nextStart (text : List Char) (chunk_size overlap start : Nat) :
    start < nextStart text chunk_size overlap start := by
  unfold nextStart
  simp only []
  split
  · have h1 : 1 ≤ max 1 (chunk_size - overlap) := le_max_left _ _
    omega
  · omega

/-- One pass of the chunking loop from cursor `start`: emit the trimmed
window slice when non-empty and continue at the advanced cursor. -/
def chunkGo (text : List Char) (chunk_size overlap : Nat) (start : Nat) :
    List (List Char) :=
  if _h : start < text.length then
    let chunk := stripList
      ((text.drop start).take (snapEnd text chunk_size overlap start - start))
    let rest := chunkGo text chunk_size overlap (nextStart text chunk_size overlap start)
    if chunk = [] then rest else chunk :: rest
  else []
termination_by text.length - start
decreasing_by
  have h1 := lt_nextStart text chunk_size overlap start
  omega

/-- Model of `_chunk_text`. -/
def chunk_text (text : List Char) (chunk_size overlap : Nat) : List (List Char) :=
  if text = [] then [] else chunkGo text chunk_size overlap 0

theorem rfindChar_toNat_lt {s : List Char} {c : Char} {lo hi : Nat}
    (h : (0 : Int) ≤ rfindChar s c lo hi) : (rfindChar s c lo hi).toNat < hi := by
  have hlt : rfindChar s c lo hi < (hi : Int) := rfindChar_lt rfl h
  omega

/-- The snapped window end never exceeds the raw window end `start + chunk_size`. -/
theorem snapEnd_le (text : List Char) (chunk_size overlap start : Nat) :
    snapEnd text chunk_size overlap start ≤ start + chunk_size := by
  have hmin : min (start + chunk_size) text.length ≤ start + chunk_size :=
    Nat.min_le_left _ _
  simp only [snapEnd]
  split
  · by_cases hc : rfindChar text '\n' (start + overlap)
        (min (start + chunk_size) text.length) ≤ (start : Int)
    · rw [if_pos hc]
      split
      · next hs =>
        have h0 : (0 : Int) ≤ rfindChar text ' ' (start + overlap)
            (min (start + chunk_size) text.length) :=
          le_trans (Int.ofNat_nonneg start) (le_of_lt hs)
        have hlt := rfindChar_toNat_lt h0
        omega
      · exact hmin
    · rw [if_neg hc]
      split
      · next hs =>
        have h0 : (0 : Int) ≤ rfindChar text '\n' (start + overlap)
            (min (start + chunk_size) text.length) :=
          le_trans (Int.ofNat_nonneg start) (le_of_lt hs)
        have hlt := rfindChar_toNat_lt h0
        omega
      · exact hmin
  · exact hmin

/-- Every chunk emitted by the loop is non-empty and no longer than
`chunk_size`. -/
theorem chunkGo_sound (text : List Char) (chunk_size overlap : Nat) :
    ∀ start, ∀ c ∈ chunkGo text chunk_size overlap start,
      c ≠ [] ∧ c.length ≤ chunk_size := by
  suffices hfuel : ∀ n start, text.length - start ≤ n →
      ∀ c ∈ chunkGo text chunk_size overlap start,
        c ≠ [] ∧ c.length ≤ chunk_size by
    intro start
    exact hfuel (text.length - start) start le_rfl
  intro n
  induction n with
  | zero =>
    intro start hle c hc
    rw [chunkGo] at hc
    rw [dif_neg (by omega)] at hc
    simp at hc
  | succ n ih =>
    intro start hle c hc
    rw [chunkGo] at hc
    by_cases hlt : start < text.length
    · rw [dif_pos hlt] at hc
      simp only [] at hc
      have hnext := lt_nextStart text chunk_size overlap start
      split at hc
      · exact ih _ (by omega) c hc
      · next hne =>
        rcases List.mem_cons.mp hc with hceq | hmem
        · rw [hceq]
          refine ⟨hne, ?_⟩
          have h1 : (stripList ((text.drop start).take
              (snapEnd text chunk_size overlap start - start))).length ≤
              ((text.drop start).take
                (snapEnd text chunk_size overlap start - start)).length :=
            length_stripList_le _
          have h2 : ((text.drop start).take
              (snapEnd text chunk_size overlap start - start)).length ≤
              snapEnd text chunk_size overlap start - start := by
            rw [List.length_take]; exact Nat.min_le_left _ _
          have h3 := snapEnd_le text chunk_size overlap start
          omega
        · exact ih _ (by omega) c hmem
    · rw [dif_neg hlt] at hc
      simp at hc

/-- C1: for every `chunk_size > overlap ≥ 0` and every input text, chunking
terminates (`chunk_text` is a total function defined by well-founded
recursion on `text.length - start`) and every returned chunk is a non-empty
string of length at most `chunk_size`. -/
theorem chunk_text_sound (text : List Char) (chunk_size overlap : Nat)
    (h : overlap < chunk_size) :
    (chunk_text text chunk_size overlap).all
      (fun c => !c.isEmpty && decide (c.length ≤ chunk_size)) = true := by
  rw [List.all_eq_true]
  intro c hc
  unfold chunk_text at hc
  split at hc
  · simp at hc
  · have hs := chunkGo_sound text chunk_size overlap 0 c hc
    simp only [Bool.and_eq_true, Bool.not_eq_true', decide_eq_true_eq]
    constructor
    · cases c with
      | nil => exact absurd rfl hs.1
      | cons a l => rfl
    · exact hs.2

/-- Witness for C1 at a concrete input. -/
theorem chunk_text_sound_witness :
    2 < 5 ∧ (chunk_text
        ['h','e','l','l','o',' ','w','o','r','l','d'] 5 2).all
      (fun c => !c.isEmpty && decide (c.length ≤ 5)) = true :=
  ⟨by decide, chunk_text_sound ['h','e','l','l','o',' ','w','o','r','l','d'] 5 2
    (by decide)⟩

/-- C2 counterexample: the non-empty text `"abc"` has length `3 < 4 =
chunk_size`, yet with `overlap = 2` the loop re-enters at cursor
`end - overlap = 1` and emits a second chunk `"bc"`: the result has two
chunks, not exactly one. -/
theorem chunkGo_of_le (text : List Char) (chunk_size overlap start : Nat)
    (h : text.length ≤ start) : chunkGo text chunk_size overlap start = [] := by
  rw [chunkGo]
  rw [dif_neg (by omega)]

theorem chunk_text_short_not_single :
    chunk_text ['a', 'b', 'c'] 4 2 = [['a', 'b', 'c'], ['b', 'c']] ∧
    (['a', 'b', 'c'] : List Char) ≠ [] ∧
    (['a', 'b', 'c'] : List Char).length < 4 ∧
    (chunk_text ['a', 'b', 'c'] 4 2).length ≠ 1 := by
  have s1 : snapEnd ['a', 'b', 'c'] 4 2 1 = 3 := by decide
  have n1 : nextStart ['a', 'b', 'c'] 4 2 1 = 3 := by decide
  have s0 : snapEnd ['a', 'b', 'c'] 4 2 0 = 3 := by decide
  have n0 : nextStart ['a', 'b', 'c'] 4 2 0 = 1 := by decide
  have e3 : chunkGo ['a', 'b', 'c'] 4 2 3 = [] :=
    chunkGo_of_le _ _ _ _ (by decide)
  have e1 : chunkGo ['a', 'b', 'c'] 4 2 1 = [['b', 'c']] := by
    rw [chunkGo, dif_pos (by decide : 1 < (['a', 'b', 'c'] : List Char).length)]
    simp only [s1, n1, e3]
    decide
  have e0 : chunkGo ['a', 'b', 'c'] 4 2 0 = [['a', 'b', 'c'], ['b', 'c']] := by
    rw [chunkGo, dif_pos (by decide : 0 < (['a', 'b', 'c'] : List Char).length)]
    simp only [s0, n0, e1]
    decide
  have etop : chunk_text ['a', 'b', 'c'] 4 2 = [['a', 'b', 'c'], ['b', 'c']] := by
    unfold chunk_text
    rw [if_neg (by decide), e0]
  refine ⟨etop, by decide, by decide, ?_⟩
  rw [etop]
  decide

/-- C2 amended: one chunk is returned for a text (trimming to non-empty) of
length `< chunk_size` exactly when the cursor update after the first window
leaves the text: either `overlap = 0` (so the cursor jumps to `len`), or the
text fits inside both the overlap region and the forced advance
(`len ≤ overlap` and `len ≤ chunk_size − overlap`).  The single chunk is the
whole trimmed text. -/
theorem chunk_text_short_single (text : List Char) (chunk_size overlap : Nat)
    (hov : overlap < chunk_size) (hne : stripList text ≠ [])
    (hlen : text.length < chunk_size)
    (hone : overlap = 0 ∨
      (text.length ≤ overlap ∧ text.length ≤ chunk_size - overlap)) :
    chunk_text text chunk_size overlap = [stripList text] := by
  have htne : text ≠ [] := by
    intro hnil
    apply hne
    rw [hnil]
    rfl
  have hpos : 0 < text.length := List.length_pos.mpr htne
  have hsnap : snapEnd text chunk_size overlap 0 = text.length := by
    unfold snapEnd
    simp only []
    have hmin : min (0 + chunk_size) text.length = text.length := by omega
    rw [hmin]
    rw [if_neg (lt_irrefl _)]
  have hchunk : stripList ((text.drop 0).take
      (snapEnd text chunk_size overlap 0 - 0)) = stripList text := by
    rw [hsnap]
    simp
  have hnext : text.length ≤ nextStart text chunk_size overlap 0 := by
    unfold nextStart
    simp only []
    rw [hsnap]
    rcases hone with h0 | ⟨h1, h2⟩
    · rw [h0]
      split <;> omega
    · split <;> omega
  unfold chunk_text
  rw [if_neg htne]
  rw [chunkGo]
  rw [dif_pos hpos]
  simp only []
  rw [hchunk]
  rw [if_neg hne]
  rw [chunkGo_of_le text chunk_size overlap _ hnext]

/-- Witness for the amended C2 at a concrete input. -/
theorem chunk_text_short_single_witness :
    chunk_text ['a', 'b', 'c'] 10 5 = [stripList ['a', 'b', 'c']] :=
  chunk_text_short_single ['a', 'b', 'c'] 10 5 (by decide) (by decide)
    (by decide) (Or.inr ⟨by decide, by decide⟩)

/-! ## Data model

Configuration constants of `app/services/index.py` and `app/services/rag.py`
at their in-code defaults. -/

def CHUNK_SIZE : Nat := 600
def CHUNK_OVERLAP : Nat := 100
def DOC_ID : List Char := "akar_website_pdf_v1".data
def BATCH_SIZE : Nat := 100
def MAX_SOURCES : Nat := 3
def SNIPPET_LENGTH : Nat := 200
def HIGH_THRESHOLD : ℚ := 7/10
def MEDIUM_THRESHOLD : ℚ := 9/20
def NOT_FOUND_PHRASE : List Char :=
  "I couldn't find this information in the website knowledge base.".data

/-- One titled region of the source corpus, as produced by the PDF section
splitter (`Section` dataclass in `app/services/pdf_parser.py`; the transient
`lines` accumulator used only during parsing is not modelled). -/
structure Section where
  section_title : List Char
  url : List Char
  full_text : List Char
deriving DecidableEq

/-- One metadata record, the dict built per chunk in `build_index`. -/
structure Meta where
  url : List Char
  section_title : List Char
  chunk_index : Nat
  doc_id : List Char
  text : List Char
deriving DecidableEq

/-- A cited source, the dict built per kept hit in `_build_sources`. -/
structure Source where
  url : List Char
  section_title : List Char
  snippet : List Char
deriving DecidableEq

/-- The three confidence tiers returned by `_confidence_level`. -/
inductive Confidence where
  | low
  | medium
  | high
deriving DecidableEq

/-! ## Confidence scorer (`_confidence_level` in `app/services/rag.py`)

```python
def _confidence_level(retrieved, answer):
    if NOT_FOUND_PHRASE in answer or not retrieved:
        return "low"
    top_score = retrieved[0][1]
    if top_score >= HIGH_THRESHOLD and len(retrieved) >= 2:
        return "high"
    if top_score >= MEDIUM_THRESHOLD:
        return "medium"
    return "low"
```
The two thresholds are environment-configurable module constants, so they
are passed as explicit parameters here; their in-code defaults are
`HIGH_THRESHOLD` and `MEDIUM_THRESHOLD`.  `retrieved[0][1]` is read through
a `match` whose `[]` branch is unreachable behind the emptiness guard. -/

def confidence_level (high_threshold medium_threshold : ℚ)
    (retrieved : List (Meta × ℚ)) (answer : List Char) : Confidence :=
  if listContains answer NOT_FOUND_PHRASE = true ∨ retrieved = [] then .low
  else
    match retrieved with
    | [] => .low
    | (_, top_score) :: _ =>
      if high_threshold ≤ top_score ∧ 2 ≤ retrieved.length then .high
      else if medium_threshold ≤ top_score then .medium
      else .low

/-! ## Source deduplicator (`_build_sources` in `app/services/rag.py`)

```python
def _build_sources(retrieved):
    seen = set(); sources = []
    for meta, _ in retrieved:
        url = meta["url"]
        if url in seen: continue
        seen.add(url)
        snippet = meta["text"][:SNIPPET_LENGTH].strip()
        if len(meta["text"]) > SNIPPET_LENGTH:
            snippet += " …"
        sources.append({"url": url, "section_title": ..., "snippet": snippet})
        if len(sources) >= MAX_SOURCES: break
    return sources
```
-/

/-- The source entry built from one kept hit's metadata. -/
def mk_source (m : Meta) : Source :=
  { url := m.url
    section_title := m.section_title
    snippet := stripList (m.text.take SNIPPET_LENGTH) ++
      (if SNIPPET_LENGTH < m.text.length then [' ', '…'] else []) }

/-- The deduplication loop: `seen` is the set of already-emitted URLs
(modelled as a list), `acc` the emitted sources in order. -/
def build_sources_go : List (Meta × ℚ) → List (List Char) → List Source →
    List Source
  | [], _, acc => acc
  | (m, _) :: rest, seen, acc =>
    if m.url ∈ seen then build_sources_go rest seen acc
    else
      let acc2 := acc ++ [mk_source m]
      if MAX_SOURCES ≤ acc2.length then acc2
      else build_sources_go rest (m.url :: seen) acc2

/-- Model of `_build_sources`. -/
def build_sources (retrieved : List (Meta × ℚ)) : List Source :=
  build_sources_go retrieved [] []

/-! ## Query expander (`_expand_query` in `app/services/rag.py`) -/

/-- The fixed trigger-keyword → expansion-phrase mapping, in the insertion
order of the Python dict (which is its iteration order). -/
def expansions : List (List Char × List Char) :=
  [ ("client".data,    "clients projects work engagement AMNEX NMDPL".data)
  , ("clients".data,   "clients projects work engagement AMNEX NMDPL".data)
  , ("customer".data,  "clients projects work engagement".data)
  , ("work".data,      "client engagement projects AMNEX NMDPL our work".data)
  , ("project".data,   "client engagement projects our work".data)
  , ("founder".data,   "founders directors managing director team".data)
  , ("founders".data,  "founders directors managing director team".data)
  , ("team".data,      "founders directors managing director team".data)
  , ("about".data,     "about AKAR vision values founders directors".data)
  , ("service".data,   "services solutions field research AI urban transformation".data)
  , ("services".data,  "services solutions field research AI urban transformation".data)
  , ("solution".data,  "services solutions capabilities".data)
  , ("solutions".data, "services solutions capabilities".data)
  , ("contact".data,   "contact us get in touch".data)
  , ("price".data,     "pricing cost consultation contact".data)
  , ("cost".data,      "pricing cost consultation contact".data) ]

/-- The normalised query `q = question.lower().strip()`. -/
def qnorm (question : List Char) : List Char :=
  stripList (lowerList question)

/-- Model of `_expand_query`: the `for keyword, expansion in
expansions.items()` loop with early `return` is the first match of the scan;
on a match the expansion is appended to the original (un-lowered) question
after a single space. -/
def expand_query (question : List Char) : List Char :=
  match expansions.find? (fun p => listContains (qnorm question) p.1) with
  | some p => question ++ ' ' :: p.2
  | none => question

/-! ## Index loading (`_load_index_from_disk` in `app/services/index.py`)

```python
def _load_index_from_disk(storage_dir):
    storage_path = Path(storage_dir)
    index = faiss.read_index(str(storage_path / FAISS_INDEX_FILE))
    with open(storage_path / METADATA_FILE, "rb") as f:
        metadata = pickle.load(f)
    return index, metadata
```
The storage directory is modelled by the (possibly missing) contents of its
two artifact files; a FAISS flat index is its stored vector rows.  A missing
file makes `faiss.read_index` / `open` raise, modelled as an error result;
otherwise both artifacts are returned exactly as read — the function body
contains no validation between reading and returning. -/

/-- On-disk contents of the storage directory: `faiss.index` and
`metadata.pkl`, each possibly absent. -/
structure DiskState where
  index_file : Option (List (List ℚ))
  metadata_file : Option (List Meta)
deriving DecidableEq

inductive LoadError where
  | file_not_found
deriving DecidableEq

/-- Model of `_load_index_from_disk`. -/
def load_index_from_disk (s : DiskState) :
    Except LoadError (List (List ℚ) × List Meta) :=
  match s.index_file with
  | none => .error .file_not_found
  | some index =>
    match s.metadata_file with
    | none => .error .file_not_found
    | some metadata => .ok (index, metadata)

/-! ## Similarity search post-processing (`similarity_search` in
`app/services/index.py`)

```python
scores, indices = index.search(q_vec, top_k)
return [
    (metadata[idx], float(score))
    for score, idx in zip(scores[0], indices[0])
    if idx != -1
]
```
Query embedding, normalisation and the FAISS `index.search` call are
external-provider steps; the model takes the provider's zipped
`(score, index)` rows as input.  `metadata[idx]` follows Python list
indexing (negative indices address from the end; out-of-range raises,
modelled as `none`). -/

/-- Python `l[i]` for `i : Int`. -/
def pyGet {α : Type} (l : List α) (i : Int) : Option α :=
  if 0 ≤ i then l.get? i.toNat
  else if (-i).toNat ≤ l.length then l.get? (l.length - (-i).toNat)
  else none

/-- Model of the result comprehension of `similarity_search`. -/
def similarity_search : List (ℚ × Int) → List Meta → Option (List (Meta × ℚ))
  | [], _ => some []
  | (score, idx) :: rest, metadata =>
    if idx = -1 then similarity_search rest metadata
    else
      match pyGet metadata idx, similarity_search rest metadata with
      | some m, some l => some ((m, score) :: l)
      | _, _ => none

/-! ## Index build (`build_index` in `app/services/index.py`)

The chunk/metadata accumulation loops, the empty-corpus guard and the
batched embedding loop followed by the two artifact writes are modelled; the
numeric content of the vectors (produced by the external embedding provider
and consumed by FAISS) does not influence control flow and is not modelled.
The function returns the Python return value (`total`) or the raised
`ValueError`, paired with the ordered trace of provider calls and artifact
writes it performs. -/

/-- Per-section metadata records: `chunk_index` is the 0-based position of
the chunk within its section (`enumerate(chunks)` in the Python loop). -/
def section_metadata (s : Section) : List Meta :=
  (chunk_text s.full_text CHUNK_SIZE CHUNK_OVERLAP).enum.map
    (fun p => { url := s.url
                section_title := s.section_title
                chunk_index := p.1
                doc_id := DOC_ID
                text := p.2 })

/-- Batching: `all_chunks[batch_start : batch_start + n]` for
`batch_start in range(0, total, n)`. -/
def to_batches {α : Type} (n : Nat) : List α → List (List α)
  | [] => []
  | a :: l =>
    if _hn : n = 0 then []
    else (a :: l).take n :: to_batches n ((a :: l).drop n)
termination_by l => l.length
decreasing_by
  have hd : ((a :: l).drop n).length = (a :: l).length - n :=
    List.length_drop n (a :: l)
  simp only [List.length_cons] at hd ⊢
  omega

/-- Observable effects of `build_index`, in execution order. -/
inductive BuildEvent where
  | embed_call (batch : List (List Char))
  | write_index (vector_count : Nat)
  | write_metadata (metadata : List Meta)
deriving DecidableEq

/-- Model of `build_index`: result (returned total, or the `ValueError`
message) together with the trace of embedding calls and artifact writes. -/
def build_index (sections : List Section) :
    Except (List Char) Nat × List BuildEvent :=
  let all_chunks := (sections.map
    (fun s => chunk_text s.full_text CHUNK_SIZE CHUNK_OVERLAP)).flatten
  let all_metadata := (sections.map section_metadata).flatten
  let total := all_chunks.length
  if total = 0 then
    (.error "No chunks generated — check PDF content.".data, [])
  else
    (.ok total,
      (to_batches BATCH_SIZE all_chunks).map (fun b => BuildEvent.embed_call b)
        ++ [BuildEvent.write_index total, BuildEvent.write_metadata all_metadata])

/-! ## Theorems about the loader, the scorer and the build -/

/-- A sample metadata record for concrete instances. -/
def sample_meta : Meta :=
  { url := "https://example.com".data
    section_title := "Hero".data
    chunk_index := 0
    doc_id := DOC_ID
    text := "hello".data }

/-- C3 counterexample: a snapshot whose index holds 3 vectors while the
metadata list has 1 entry is loaded successfully — `_load_index_from_disk`
returns the mismatched pair instead of rejecting it at load time. -/
theorem load_mismatch_not_detected :
    load_index_from_disk ⟨some [[1], [2], [3]], some [sample_meta]⟩ =
      .ok ([[1], [2], [3]], [sample_meta]) ∧
    ([[1], [2], [3]] : List (List ℚ)).length ≠ [sample_meta].length :=
  ⟨rfl, by decide⟩

/-- C3 amended: whenever both artifacts are present, the loader returns them
exactly as read, with no length-mismatch validation of any kind — a
mismatched pair is not detected at load time. -/
theorem load_returns_unvalidated (index : List (List ℚ))
    (metadata : List Meta) :
    load_index_from_disk ⟨some index, some metadata⟩ = .ok (index, metadata) :=
  rfl

/-- C5: an empty retrieval result yields `low` confidence for every answer
text and any thresholds. -/
theorem confidence_empty_retrieval_low (high_threshold medium_threshold : ℚ)
    (answer : List Char) :
    confidence_level high_threshold medium_threshold [] answer =
      Confidence.low := by
  unfold confidence_level
  rw [if_pos (Or.inr rfl)]

/-- C4: `high` is returned only when the retrieval result has at least two
hits and its top hit's score reaches the high threshold; in particular a
single-hit result never yields `high`, whatever its score. -/
theorem confidence_high_needs_two_hits (high_threshold medium_threshold : ℚ)
    (retrieved : List (Meta × ℚ)) (answer : List Char) :
    (confidence_level high_threshold medium_threshold retrieved answer =
        Confidence.high →
      2 ≤ retrieved.length ∧
        ∃ p, retrieved.head? = some p ∧ high_threshold ≤ p.2) ∧
    (retrieved.length = 1 →
      confidence_level high_threshold medium_threshold retrieved answer ≠
        Confidence.high) := by
  have key : confidence_level high_threshold medium_threshold retrieved
        answer = Confidence.high →
      2 ≤ retrieved.length ∧
        ∃ p, retrieved.head? = some p ∧ high_threshold ≤ p.2 := by
    intro hh
    unfold confidence_level at hh
    split at hh
    · exact absurd hh (by decide)
    · next hneg =>
      rcases retrieved with _ | ⟨⟨m, top_score⟩, rest⟩
      · exact absurd (Or.inr rfl) hneg
      · simp only [] at hh
        split at hh
        · next hcase =>
          exact ⟨hcase.2, ⟨(m, top_score), rfl, hcase.1⟩⟩
        · split at hh
          · exact absurd hh (by decide)
          · exact absurd hh (by decide)
  refine ⟨key, ?_⟩
  intro hlen hcontra
  have h2 := (key hcontra).1
  omega

/-- Witness for C4: a single hit scoring far above the high threshold still
does not yield `high`. -/
theorem confidence_high_needs_two_hits_witness :
    confidence_level HIGH_THRESHOLD MEDIUM_THRESHOLD
      [(sample_meta, 99/100)] "great".data ≠ Confidence.high :=
  (confidence_high_needs_two_hits HIGH_THRESHOLD MEDIUM_THRESHOLD
    [(sample_meta, 99/100)] "great".data).2 rfl

/-- C8: when the sections' texts together produce zero chunks, `build_index`
fails with the `ValueError` and its effect trace is empty: no embedding call
is made and neither the index artifact nor the metadata artifact is
written. -/
theorem build_index_zero_chunks (sections : List Section)
    (h : (sections.map
      (fun s => chunk_text s.full_text CHUNK_SIZE CHUNK_OVERLAP)).flatten
        = []) :
    build_index sections =
      (.error "No chunks generated — check PDF content.".data, []) := by
  unfold build_index
  simp only []
  rw [h]
  rfl

/-- Witness for C8: the empty corpus. -/
theorem build_index_zero_chunks_witness :
    build_index ([] : List Section) =
      (.error "No chunks generated — check PDF content.".data, []) :=
  build_index_zero_chunks [] rfl

/-! ## Theorems about the query expander -/

/-- A list's `find?` returns the element at the first satisfying index. -/
theorem find?_eq_some_of_first {α : Type} (p : α → Bool) :
    ∀ (l : List α) (i : Nat) (hi : i < l.length),
      p (l.get ⟨i, hi⟩) = true →
      (∀ j (hj : j < i), p (l.get ⟨j, Nat.lt_trans hj hi⟩) = false) →
      l.find? p = some (l.get ⟨i, hi⟩) := by
  intro l
  induction l with
  | nil =>
    intro i hi
    simp at hi
  | cons a as ih =>
    intro i hi hp hprev
    cases i with
    | zero =>
      have hp' : p a = true := hp
      exact List.find?_cons_of_pos _ hp'
    | succ n =>
      have ha : p a = false := hprev 0 (Nat.succ_pos n)
      rw [List.find?_cons_of_neg _ (by simp [ha])]
      exact ih n (Nat.lt_of_succ_lt_succ hi) hp
        (fun j hj => hprev (j + 1) (Nat.succ_lt_succ hj))

/-- C9: the expander returns the question unchanged when no trigger keyword
occurs in the lower-cased trimmed question, and otherwise appends a single
space and exactly the expansion phrase of the first matching keyword in
mapping iteration order — one expansion at most, even when several keywords
match. -/
theorem expand_query_first_match (question : List Char) :
    ((∀ p ∈ expansions, listContains (qnorm question) p.1 = false) →
      expand_query question = question) ∧
    (∀ i (hi : i < expansions.length),
      listContains (qnorm question) (expansions.get ⟨i, hi⟩).1 = true →
      (∀ j (hj : j < i),
        listContains (qnorm question)
          (expansions.get ⟨j, Nat.lt_trans hj hi⟩).1 = false) →
      expand_query question =
        question ++ ' ' :: (expansions.get ⟨i, hi⟩).2) := by
  constructor
  · intro hall
    unfold expand_query
    rw [List.find?_eq_none.mpr
      (fun x hx => by rw [hall x hx]; simp)]
  · intro i hi hp hprev
    unfold expand_query
    rw [find?_eq_some_of_first _ expansions i hi hp hprev]

/-- Witness for C9: `"client"` (mapping index 0) triggers on a question
containing it. -/
theorem expand_query_first_match_witness :
    expand_query "Who is your client?".data =
      "Who is your client?".data ++ ' ' ::
        (expansions.get ⟨0, by decide⟩).2 :=
  (expand_query_first_match "Who is your client?".data).2 0 (by decide)
    (by decide) (by decide)

/-- C10: the expander's output always has the original question as a prefix,
character for character: it is either exactly the question or the question
followed by a space and one expansion phrase from the mapping. -/
theorem expand_query_preserves_question (question : List Char) :
    question <+: expand_query question ∧
    (expand_query question = question ∨
      ∃ p ∈ expansions, expand_query question = question ++ ' ' :: p.2) := by
  rcases hf : expansions.find? (fun p => listContains (qnorm question) p.1)
    with _ | p
  · have he : expand_query question = question := by
      unfold expand_query
      rw [hf]
    refine ⟨?_, Or.inl he⟩
    rw [he]
  · have he : expand_query question = question ++ ' ' :: p.2 := by
      unfold expand_query
      rw [hf]
    refine ⟨?_, Or.inr ⟨p, List.mem_of_find?_eq_some hf, he⟩⟩
    rw [he]
    exact ⟨' ' :: p.2, rfl⟩

/-! ## Theorems about the source deduplicator -/

/-- First-occurrence deduplication of a URL sequence: the order in which
distinct URLs first appear.  Reference order for C7. -/
def dedup_first : List (List Char) → List (List Char) → List (List Char)
  | [], _ => []
  | u :: rest, seen =>
    if u ∈ seen then dedup_first rest seen
    else u :: dedup_first rest (u :: seen)

theorem mk_source_url (m : Meta) : (mk_source m).url = m.url := rfl

theorem build_sources_go_length :
    ∀ (hits : List (Meta × ℚ)) (seen : List (List Char)) (acc : List Source),
      acc.length < MAX_SOURCES →
      (build_sources_go hits seen acc).length ≤ MAX_SOURCES := by
  intro hits
  induction hits with
  | nil =>
    intro seen acc h
    simpa [build_sources_go] using Nat.le_of_lt h
  | cons hd rest ih =>
    intro seen acc h
    obtain ⟨m, sc⟩ := hd
    simp only [build_sources_go]
    split
    · exact ih seen acc h
    · split
      · next hbreak =>
        simp only [List.length_append, List.length_singleton]
        omega
      · next hcont =>
        apply ih
        simp only [List.length_append, List.length_singleton] at hcont ⊢
        omega

theorem build_sources_go_nodup :
    ∀ (hits : List (Meta × ℚ)) (seen : List (List Char)) (acc : List Source),
      (acc.map Source.url).Nodup →
      (∀ s ∈ acc, s.url ∈ seen) →
      ((build_sources_go hits seen acc).map Source.url).Nodup := by
  intro hits
  induction hits with
  | nil =>
    intro seen acc h1 h2
    simpa [build_sources_go] using h1
  | cons hd rest ih =>
    intro seen acc h1 h2
    obtain ⟨m, sc⟩ := hd
    simp only [build_sources_go]
    split
    · exact ih seen acc h1 h2
    · next hnotseen =>
      have hnotacc : m.url ∉ acc.map Source.url := by
        intro hmem
        obtain ⟨s, hs, hurl⟩ := List.mem_map.mp hmem
        exact hnotseen (hurl ▸ h2 s hs)
      have h1' : ((acc ++ [mk_source m]).map Source.url).Nodup := by
        rw [List.map_append]
        rw [List.nodup_append]
        refine ⟨h1, List.nodup_singleton _, ?_⟩
        intro x hx hx'
        simp only [List.map_cons, List.map_nil, List.mem_singleton,
          mk_source_url] at hx'
        exact hnotacc (hx' ▸ hx)
      split
      · exact h1'
      · apply ih _ _ h1'
        intro s hs
        rcases List.mem_append.mp hs with hs1 | hs2
        · exact List.mem_cons_of_mem _ (h2 s hs1)
        · simp only [List.mem_singleton] at hs2
          rw [hs2, mk_source_url]
          exact List.mem_cons_self _ _

theorem build_sources_go_sublist :
    ∀ (hits : List (Meta × ℚ)) (seen : List (List Char)) (acc : List Source),
      List.Sublist ((build_sources_go hits seen acc).map Source.url)
        (acc.map Source.url ++
          dedup_first (hits.map (fun p => p.1.url)) seen) := by
  intro hits
  induction hits with
  | nil =>
    intro seen acc
    simp [build_sources_go, dedup_first]
  | cons hd rest ih =>
    intro seen acc
    obtain ⟨m, sc⟩ := hd
    simp only [build_sources_go, List.map_cons, dedup_first]
    by_cases hseen : m.url ∈ seen
    · rw [if_pos hseen, if_pos hseen]
      exact ih seen acc
    · rw [if_neg hseen, if_neg hseen]
      split
      · next hbreak =>
        rw [List.map_append]
        apply List.Sublist.append_left
        exact (List.nil_sublist _).cons₂ _
      · next hcont =>
        have hrec := ih (m.url :: seen) (acc ++ [mk_source m])
        rw [List.map_append, List.append_assoc] at hrec
        exact hrec

/-- C7: the deduplicated source list has at most `MAX_SOURCES` entries, no
two entries share a URL, and the emitted URLs form a subsequence of the
first-occurrence order of URLs in the retrieval result (retrieval-rank
order, first-seen URL wins). -/
theorem build_sources_spec (retrieved : List (Meta × ℚ)) :
    (build_sources retrieved).length ≤ MAX_SOURCES ∧
    ((build_sources retrieved).map Source.url).Nodup ∧
    List.Sublist ((build_sources retrieved).map Source.url)
      (dedup_first (retrieved.map (fun p => p.1.url)) []) := by
  refine ⟨?_, ?_, ?_⟩
  · exact build_sources_go_length retrieved [] [] (by decide)
  · exact build_sources_go_nodup retrieved [] [] List.nodup_nil
      (fun s hs => absurd hs (List.not_mem_nil s))
  · have hrec := build_sources_go_sublist retrieved [] []
    simpa using hrec

/-! ## Theorems about similarity-search post-processing -/

/-- Structure of the search result: it succeeds under the provider contract
(indices are the `-1` sentinel or in metadata range), keeps exactly the
non-sentinel hits in order, and pairs the i-th surviving hit with the
metadata entry at that hit's index position. -/
theorem similarity_search_aux (metadata : List Meta) :
    ∀ out : List (ℚ × Int),
      (∀ p ∈ out, p.2 = -1 ∨ (0 ≤ p.2 ∧ p.2 < (metadata.length : Int))) →
      ∃ l, similarity_search out metadata = some l ∧
        l.length ≤ out.length ∧
        List.Forall₂ (fun (q : Meta × ℚ) (p : ℚ × Int) =>
            pyGet metadata p.2 = some q.1 ∧ q.2 = p.1)
          l (out.filter (fun p => p.2 != -1)) := by
  intro out
  induction out with
  | nil =>
    intro _
    exact ⟨[], rfl, Nat.le_refl _, by simp⟩
  | cons hd tl ih =>
    intro hvalid
    obtain ⟨sc, idx⟩ := hd
    obtain ⟨l, hl, hlen, hrel⟩ :=
      ih (fun p hp => hvalid p (List.mem_cons_of_mem _ hp))
    by_cases h1 : idx = -1
    · subst h1
      refine ⟨l, ?_, ?_, ?_⟩
      · simp only [similarity_search, if_true]
        exact hl
      · simp
        omega
      · rw [List.filter_cons_of_neg (by simp)]
        exact hrel
    · rcases hvalid (sc, idx) (List.mem_cons_self _ _) with hc | ⟨h0, hlt⟩
      · exact absurd hc h1
      · have hnat : idx.toNat < metadata.length := by omega
        have hget : pyGet metadata idx =
            some (metadata.get ⟨idx.toNat, hnat⟩) := by
          unfold pyGet
          rw [if_pos h0]
          exact List.get?_eq_get hnat
        refine ⟨(metadata.get ⟨idx.toNat, hnat⟩, sc) :: l, ?_, ?_, ?_⟩
        · simp only [similarity_search]
          rw [if_neg h1, hget, hl]
        · simp
          omega
        · rw [List.filter_cons_of_pos (by simp [h1])]
          exact List.Forall₂.cons ⟨hget, rfl⟩ hrel

/-- C6: under the provider's search contract (`top_k` result rows, each row
either a hit with an in-range index position or the `-1` not-found
sentinel), the returned list contains no entry for index position `-1`, has
length at most `top_k`, and its i-th entry pairs the i-th surviving hit's
score with the metadata entry at exactly that hit's index position. -/
theorem similarity_search_spec (top_k : Nat) (search_output : List (ℚ × Int))
    (metadata : List Meta)
    (hk : search_output.length = top_k)
    (hvalid : ∀ p ∈ search_output,
      p.2 = -1 ∨ (0 ≤ p.2 ∧ p.2 < (metadata.length : Int))) :
    ∃ l, similarity_search search_output metadata = some l ∧
      l.length ≤ top_k ∧
      List.Forall₂ (fun (q : Meta × ℚ) (p : ℚ × Int) =>
          pyGet metadata p.2 = some q.1 ∧ q.2 = p.1)
        l (search_output.filter (fun p => p.2 != -1)) := by
  obtain ⟨l, h1, h2, h3⟩ := similarity_search_aux metadata search_output hvalid
  exact ⟨l, h1, by omega, h3⟩

/-- Witness for C6: a 3-row provider output with one `-1` sentinel row over
a 2-entry metadata list. -/
theorem similarity_search_spec_witness :
    similarity_search [((9 : ℚ)/10, 0), ((1 : ℚ)/2, 1), (0, -1)]
      [sample_meta, sample_meta] ≠ none := by
  obtain ⟨l, hl, -, -⟩ := similarity_search_spec 3
    [((9 : ℚ)/10, 0), ((1 : ℚ)/2, 1), (0, -1)] [sample_meta, sample_meta]
    rfl (by decide)
  rw [hl]
  simp

end Akar
